import Mathlib

/-!
Shallow embedding of `vuln-common-file-disclosure-scanner` (src/main.py).

The program is a sequential CLI scanner: it validates a base URL, then for
each candidate filename joins it to the base, issues one HTTP GET, and
records URLs answering with status 200 together with their response bodies
in an insertion-ordered map; the map is optionally rendered to a report file.

The HTTP layer (`requests.get` with `allow_redirects=True` plus
`raise_for_status`) is modelled by an oracle mapping the requested target
URL and timeout to an outcome: the final (post-redirect) response's status
and text, a transport-level failure (`requests.exceptions.RequestException`,
which includes the `HTTPError` raised by `raise_for_status`), or any other
exception.  `raise_for_status` itself is deterministic (it raises exactly
for statuses in [400, 600)) and is embedded explicitly.
-/

namespace VulnScanner

/-- Outcome of one `requests.get` call, as observed by `check_file_exists`:
either the final response (after redirects) with its status code and text,
or a raised `requests.exceptions.RequestException` (timeout, connection
refused, DNS failure, TLS failure, ...), or any other raised exception. -/
inductive HttpOutcome where
  | response (status : Nat) (text : String)
  | transportError
  | otherError
deriving DecidableEq, Repr

/-- The network, abstracted: the outcome of a GET at a given target URL with
a given timeout (seconds). -/
def Http : Type := String → Nat → HttpOutcome

/-- The triple returned by `check_file_exists` in src/main.py:
`(exists, target_url, content)`. -/
structure ProbeResult where
  found : Bool
  url : String
  body : Option String
deriving DecidableEq, Repr

/-- `urljoin(base, url)` from src/main.py: removes one trailing slash from
`base` if present (`base[:-1]`), one leading slash from `url` if present
(`url[1:]`), and concatenates with a single `/`. -/
def urljoin (base url : String) : String :=
  let base := if base.data.getLast? = some '/' then String.mk base.data.dropLast else base
  let url := if url.data.head? = some '/' then String.mk (url.data.drop 1) else url
  base ++ "/" ++ url

/-- `response.raise_for_status()` raises `requests.exceptions.HTTPError`
(a `RequestException`) exactly for status codes in [400, 600). -/
def raisesForStatus (status : Nat) : Bool :=
  400 ≤ status && status < 600

/-- `check_file_exists(url, filename, timeout)` from src/main.py.
It joins the URL, performs the GET, calls `raise_for_status` (whose
`HTTPError` lands in the `RequestException` handler), then tests
`status_code == 200`; every exception handler returns
`(False, target_url, None)`. -/
def check_file_exists (http : Http) (url filename : String) (timeout : Nat) : ProbeResult :=
  match http (urljoin url filename) timeout with
  | HttpOutcome.response status text =>
      if raisesForStatus status then
        ProbeResult.mk false (urljoin url filename) none
      else if status = 200 then
        ProbeResult.mk true (urljoin url filename) (some text)
      else
        ProbeResult.mk false (urljoin url filename) none
  | HttpOutcome.transportError => ProbeResult.mk false (urljoin url filename) none
  | HttpOutcome.otherError => ProbeResult.mk false (urljoin url filename) none

/-- Python dict assignment `m[k] = v` on an insertion-ordered dictionary,
represented as an association list: an existing key keeps its position and
gets the new value; a new key is appended at the end. -/
def dictInsert {α : Type} (m : List (String × α)) (k : String) (v : α) : List (String × α) :=
  match m with
  | [] => [(k, v)]
  | (k', v') :: rest =>
      if k' = k then (k', v) :: rest else (k', v') :: dictInsert rest k v

/-- The scan loop of `main` in src/main.py, threading the `found_files`
dictionary through the filename list:
`for filename in files: exists, url, content = check_file_exists(...);`
`if exists: found_files[url] = content`. -/
def mainLoop (http : Http) (base : String) (timeout : Nat)
    (acc : List (String × Option String)) : List String → List (String × Option String)
  | [] => acc
  | f :: rest =>
      let r := check_file_exists http base f timeout
      mainLoop http base timeout (if r.found then dictInsert acc r.url r.body else acc) rest

/-- `found_files` after the scan loop, starting from the empty dict. -/
def found_files (http : Http) (base : String) (timeout : Nat)
    (files : List String) : List (String × Option String) :=
  mainLoop http base timeout [] files

/-! ### urllib.parse.urlparse and validate_url -/

/-- The characters allowed in a URL scheme by `urllib.parse`
(ASCII letters, digits, `+`, `-`, `.`). -/
def isSchemeChar (c : Char) : Bool :=
  c.isAlphanum || c = '+' || c = '-' || c = '.'

/-- Split a character list at its first `:`; `none` when there is no colon.
Models the colon search of `urllib.parse.urlsplit`. -/
def splitAtColon : List Char → Option (List Char × List Char)
  | [] => none
  | c :: rest =>
      if c = ':' then some ([], rest)
      else
        match splitAtColon rest with
        | some (pre, post) => some (c :: pre, post)
        | none => none

/-- A character ending the netloc section in `urllib.parse`: `/`, `?`, `#`. -/
def isNetlocDelim (c : Char) : Bool :=
  c = '/' || c = '?' || c = '#'

/-- The components of a parsed URL that `validate_url` inspects. -/
structure UrlParts where
  scheme : String
  netloc : String
  rest : String
deriving DecidableEq, Repr

/-- `urllib.parse.urlparse`, restricted to the scheme/netloc splitting that
`validate_url` observes.  The scheme is the lowercased text before the first
colon when that text is nonempty, starts with an ASCII letter and consists of
scheme characters; otherwise it is empty and the URL is left intact.  When
the remainder starts with `//`, the netloc runs up to the next `/`, `?` or
`#`; mismatched square brackets in the netloc raise
`ValueError("Invalid IPv6 URL")`, modelled as `Except.error`. -/
def urlparse (url : String) : Except String UrlParts :=
  let p :=
    match splitAtColon url.data with
    | some (pre, post) =>
        if pre ≠ [] ∧ pre.head?.elim false Char.isAlpha ∧ pre.all isSchemeChar then
          (pre.map Char.toLower, post)
        else
          ([], url.data)
    | none => ([], url.data)
  match p.2 with
  | '/' :: '/' :: r =>
      let netloc := r.takeWhile (fun c => ¬ isNetlocDelim c)
      let after := r.dropWhile (fun c => ¬ isNetlocDelim c)
      if ((netloc.contains '[') != (netloc.contains ']')) then
        Except.error "Invalid IPv6 URL"
      else
        Except.ok (UrlParts.mk (String.mk p.1) (String.mk netloc) (String.mk after))
  | r => Except.ok (UrlParts.mk (String.mk p.1) "" (String.mk r))

/-- `validate_url(url)` from src/main.py: `all([result.scheme, result.netloc])`
on the parse result (Python string truthiness = nonempty), with a bare
`except:` that turns any parsing exception into `False`. -/
def validate_url (url : String) : Bool :=
  match urlparse url with
  | Except.ok r => ¬ r.scheme.isEmpty && ¬ r.netloc.isEmpty
  | Except.error _ => false

/-! ### Output file rendering and the main driver -/

/-- Python string formatting of a value that may be `None`
(`f-string` of `content`); for found files the content is always a string. -/
def pyStr (v : Option String) : String :=
  match v with
  | some s => s
  | none => "None"

/-- `"-" * 40`, the separator line written after each found entry. -/
def dashes : String :=
  String.mk (List.replicate 40 '-')

/-- The block of writes issued for one entry of `found_files`:
`f"URL: {url}\n"`, `f"Content:\n{content}\n"`, `"-" * 40 + "\n"`. -/
def entryBlock (p : String × Option String) : String :=
  "URL: " ++ p.1 ++ "\n" ++ "Content:\n" ++ pyStr p.2 ++ "\n" ++ dashes ++ "\n"

/-- Sequential concatenation of the written blocks. -/
def concatBlocks : List String → String
  | [] => ""
  | s :: rest => s ++ concatBlocks rest

/-- The full content written to the output file by `main`:
the header plus one block per found entry when `found_files` is truthy
(nonempty), and the literal `"No sensitive files found.\n"` otherwise. -/
def outputContent (found : List (String × Option String)) : String :=
  if found.isEmpty then
    "No sensitive files found.\n"
  else
    "Potentially sensitive files found:\n" ++ concatBlocks (found.map entryBlock)

/-- The parsed command-line arguments of the scanner. -/
structure Args where
  url : String
  files : List String
  timeout : Nat
  output : Option String

/-- What a run of `main` does, as observed from outside: the process exit
code, the sequence of target URLs requested over the network, and the
content of the output file when one was requested and the write succeeded.
`writeOk` abstracts the filesystem: when `false`, `open`/`write` raises and
the `except` clause logs the error and falls through to the end of `main`. -/
structure MainResult where
  exitCode : Nat
  probes : List String
  written : Option String
deriving DecidableEq, Repr

/-- `main()` from src/main.py, after argument parsing: validate the URL and
`sys.exit(1)` on failure before any network activity; otherwise run the scan
loop, optionally write the report (write failures are caught and logged),
and return from `main`, which exits the process with code 0. -/
def pyMain (http : Http) (writeOk : Bool) (args : Args) : MainResult :=
  if validate_url args.url = false then
    MainResult.mk 1 [] none
  else
    let report := found_files http args.url args.timeout args.files
    MainResult.mk 0 (args.files.map (fun f => urljoin args.url f))
      (match args.output with
       | none => none
       | some _ => if writeOk then some (outputContent report) else none)

/-! ### Spec-side definitions (for refinement claims) -/

/-- Modelled from the spec (claim C3's reading of the URL Joiner): join after
stripping *every* trailing slash from the base and *every* leading slash from
the filename, with a single separating slash. -/
def urljoinSpec (base url : String) : String :=
  String.mk ((base.data.reverse.dropWhile (fun c => c = '/')).reverse)
    ++ "/" ++ String.mk (url.data.dropWhile (fun c => c = '/'))

/-- The probe results, in probe order, of the scan loop. -/
def probeResults (http : Http) (base : String) (timeout : Nat)
    (files : List String) : List ProbeResult :=
  files.map (fun f => check_file_exists http base f timeout)

/-- The `(url, content)` pairs of the found probes, in probe order. -/
def foundPairs (http : Http) (base : String) (timeout : Nat)
    (files : List String) : List (String × Option String) :=
  ((probeResults http base timeout files).filter (fun r => r.found)).map
    (fun r => (r.url, r.body))

/-- The keys of an association list, in order. -/
def keys {α : Type} (m : List (String × α)) : List String :=
  m.map Prod.fst

/-- Association-list lookup (the value a Python dict holds at a key). -/
def lookupD {α : Type} : List (String × α) → String → Option α
  | [], _ => none
  | (k, v) :: rest, u => if k = u then some v else lookupD rest u

/-- The value written by the *last* pair with the given key, if any. -/
def lastAssoc {α : Type} : List (String × α) → String → Option α
  | [], _ => none
  | (k, v) :: rest, u =>
      match lastAssoc rest u with
      | some w => some w
      | none => if k = u then some v else none

/-- First-occurrence deduplication relative to an already-seen list:
keeps the first occurrence of each element, in order. -/
def firstOccAux (seen : List String) : List String → List String
  | [] => []
  | x :: rest =>
      if x ∈ seen then firstOccAux seen rest
      else x :: firstOccAux (x :: seen) rest

/-- First-occurrence deduplication of a list of URLs. -/
def firstOcc (l : List String) : List String :=
  firstOccAux [] l

/-- Folding Python dict assignment over a list of pairs, left to right. -/
def insertAll {α : Type} (acc : List (String × α)) : List (String × α) → List (String × α)
  | [] => acc
  | p :: rest => insertAll (dictInsert acc p.1 p.2) rest

/-- A concrete network for evaluating the development: the target
`http://example.com/.env` answers 200 with body `SECRET`, everything
else answers 404. -/
def demoHttp : Http := fun u _ =>
  if u = "http://example.com/.env" then HttpOutcome.response 200 "SECRET"
  else HttpOutcome.response 404 "not found"

/-- A concrete network on which every GET raises a transport error. -/
def downHttp : Http := fun _ _ => HttpOutcome.transportError

/-! ### Helper lemmas about the probe -/

theorem check_of_response (http : Http) (base f : String) (timeout s : Nat) (txt : String)
    (h : http (urljoin base f) timeout = HttpOutcome.response s txt) :
    check_file_exists http base f timeout =
      if s = 200 then ProbeResult.mk true (urljoin base f) (some txt)
      else ProbeResult.mk false (urljoin base f) none := by
  unfold check_file_exists
  rw [h]
  by_cases hs : s = 200
  · subst hs
    simp [raisesForStatus]
  · simp only [hs, if_false]
    by_cases hr : raisesForStatus s = true <;> simp [hr, hs]

theorem check_of_transportError (http : Http) (base f : String) (timeout : Nat)
    (h : http (urljoin base f) timeout = HttpOutcome.transportError) :
    check_file_exists http base f timeout =
      ProbeResult.mk false (urljoin base f) none := by
  unfold check_file_exists
  rw [h]

theorem check_of_otherError (http : Http) (base f : String) (timeout : Nat)
    (h : http (urljoin base f) timeout = HttpOutcome.otherError) :
    check_file_exists http base f timeout =
      ProbeResult.mk false (urljoin base f) none := by
  unfold check_file_exists
  rw [h]

theorem check_url (http : Http) (base f : String) (timeout : Nat) :
    (check_file_exists http base f timeout).url = urljoin base f := by
  cases hh : http (urljoin base f) timeout with
  | response s txt =>
      rw [check_of_response http base f timeout s txt hh]
      by_cases hs : s = 200 <;> simp [hs]
  | transportError => rw [check_of_transportError http base f timeout hh]
  | otherError => rw [check_of_otherError http base f timeout hh]

theorem check_found_iff (http : Http) (base f : String) (timeout : Nat) :
    (check_file_exists http base f timeout).found = true ↔
      ∃ txt, http (urljoin base f) timeout = HttpOutcome.response 200 txt := by
  constructor
  · intro hf
    cases h : http (urljoin base f) timeout with
    | response s txt =>
        rw [check_of_response http base f timeout s txt h] at hf
        by_cases hs : s = 200
        · subst hs
          exact ⟨txt, rfl⟩
        · simp [hs] at hf
    | transportError => rw [check_of_transportError http base f timeout h] at hf; simp at hf
    | otherError => rw [check_of_otherError http base f timeout h] at hf; simp at hf
  · rintro ⟨txt, h⟩
    rw [check_of_response http base f timeout 200 txt h]
    simp

theorem check_found_body (http : Http) (base f : String) (timeout : Nat) (txt : String)
    (h : http (urljoin base f) timeout = HttpOutcome.response 200 txt)
    : check_file_exists http base f timeout =
      ProbeResult.mk true (urljoin base f) (some txt) := by
  rw [check_of_response http base f timeout 200 txt h]
  simp

/-! ### Helper lemmas about the ordered dictionary -/

theorem keys_dictInsert {α : Type} (m : List (String × α)) (k : String) (v : α) :
    keys (dictInsert m k v) = if k ∈ keys m then keys m else keys m ++ [k] := by
  induction m with
  | nil => simp [dictInsert, keys]
  | cons p rest ih =>
      obtain ⟨k', v'⟩ := p
      by_cases h : k' = k
      · subst h
        simp [dictInsert, keys]
      · have hne : ¬ k = k' := fun hh => h hh.symm
        simp only [dictInsert, if_neg h, keys, List.map_cons] at ih ⊢
        rw [ih]
        by_cases hm : k ∈ List.map Prod.fst rest
        · simp [List.mem_cons, hm, hne]
        · simp [List.mem_cons, hm, hne]

theorem mem_keys_dictInsert {α : Type} (m : List (String × α)) (k u : String) (v : α) :
    u ∈ keys (dictInsert m k v) ↔ u ∈ keys m ∨ u = k := by
  rw [keys_dictInsert]
  by_cases h : k ∈ keys m
  · simp only [h, if_true]
    constructor
    · exact Or.inl
    · rintro (hu | rfl)
      · exact hu
      · exact h
  · simp [h]

theorem nodup_keys_dictInsert {α : Type} (m : List (String × α)) (k : String) (v : α)
    (h : (keys m).Nodup) : (keys (dictInsert m k v)).Nodup := by
  rw [keys_dictInsert]
  by_cases hm : k ∈ keys m
  · simpa [hm] using h
  · simp only [hm, if_false]
    exact List.Nodup.append h (List.nodup_singleton k) (by simpa using hm)

theorem lookupD_dictInsert {α : Type} (m : List (String × α)) (k u : String) (v : α) :
    lookupD (dictInsert m k v) u = if k = u then some v else lookupD m u := by
  induction m with
  | nil => simp [dictInsert, lookupD]
  | cons p rest ih =>
      obtain ⟨k', v'⟩ := p
      by_cases h : k' = k
      · subst h
        simp only [dictInsert, if_true]
        by_cases hu : k' = u <;> simp [lookupD, hu]
      · simp only [dictInsert, if_neg h]
        by_cases hu : k' = u
        · subst hu
          have : ¬ (k = k') := fun hh => h hh.symm
          simp [lookupD, this]
        · simp [lookupD, hu, ih]

theorem mem_keys_iff_exists {α : Type} (m : List (String × α)) (u : String) :
    u ∈ keys m ↔ ∃ v, (u, v) ∈ m := by
  constructor
  · intro hu
    simp only [keys, List.mem_map] at hu
    obtain ⟨⟨a, b⟩, hm, hab⟩ := hu
    exact ⟨b, by simpa [← hab] using hm⟩
  · rintro ⟨v, hv⟩
    simp only [keys, List.mem_map]
    exact ⟨(u, v), hv, rfl⟩

/-! ### Helper lemmas about the scan loop -/

theorem foundPairs_nil (http : Http) (base : String) (timeout : Nat) :
    foundPairs http base timeout [] = [] := rfl

theorem foundPairs_cons (http : Http) (base f : String) (timeout : Nat) (rest : List String) :
    foundPairs http base timeout (f :: rest) =
      (if (check_file_exists http base f timeout).found then
        [((check_file_exists http base f timeout).url,
          (check_file_exists http base f timeout).body)]
       else []) ++ foundPairs http base timeout rest := by
  unfold foundPairs probeResults
  by_cases h : (check_file_exists http base f timeout).found <;>
    simp [List.filter_cons, h]

theorem mainLoop_eq_insertAll (http : Http) (base : String) (timeout : Nat)
    (files : List String) : ∀ acc,
    mainLoop http base timeout acc files = insertAll acc (foundPairs http base timeout files) := by
  induction files with
  | nil => intro acc; rfl
  | cons f rest ih =>
      intro acc
      rw [foundPairs_cons]
      by_cases h : (check_file_exists http base f timeout).found
      · simp only [h, if_true, List.singleton_append]
        simpa [mainLoop, h, insertAll] using ih _
      · simp only [h, if_false, List.nil_append]
        simpa [mainLoop, h] using ih acc

theorem lookupD_insertAll {α : Type} (ps : List (String × α)) (u : String) : ∀ acc,
    lookupD (insertAll acc ps) u = (lastAssoc ps u).elim (lookupD acc u) some := by
  induction ps with
  | nil => intro acc; simp [insertAll, lastAssoc]
  | cons p rest ih =>
      intro acc
      simp only [insertAll]
      rw [ih]
      cases hl : lastAssoc rest u with
      | some w => simp [lastAssoc, hl]
      | none =>
          simp only [lastAssoc, hl, Option.elim]
          rw [lookupD_dictInsert]
          by_cases hp : p.1 = u <;> simp [hp]

theorem firstOccAux_congr (l : List String) : ∀ s₁ s₂,
    (∀ x, x ∈ s₁ ↔ x ∈ s₂) → firstOccAux s₁ l = firstOccAux s₂ l := by
  induction l with
  | nil => intro s₁ s₂ _; rfl
  | cons x rest ih =>
      intro s₁ s₂ h
      by_cases hx : x ∈ s₁
      · have hx₂ : x ∈ s₂ := (h x).mp hx
        simp only [firstOccAux, hx, hx₂, if_true]
        exact ih s₁ s₂ h
      · have hx₂ : x ∉ s₂ := fun hc => hx ((h x).mpr hc)
        simp only [firstOccAux, hx, hx₂, if_false]
        rw [ih (x :: s₁) (x :: s₂) (fun y => by simp [List.mem_cons, h y])]

theorem keys_insertAll {α : Type} (ps : List (String × α)) : ∀ acc,
    keys (insertAll acc ps) = keys acc ++ firstOccAux (keys acc) (keys ps) := by
  induction ps with
  | nil => intro acc; simp [insertAll, firstOccAux, keys]
  | cons p rest ih =>
      intro acc
      simp only [insertAll]
      rw [ih]
      by_cases hp : p.1 ∈ keys acc
      · rw [keys_dictInsert]
        simp only [hp, if_true]
        have : keys (p :: rest) = p.1 :: keys rest := rfl
        rw [this]
        simp [firstOccAux, hp]
      · rw [keys_dictInsert]
        simp only [hp, if_false]
        have h1 : keys (p :: rest) = p.1 :: keys rest := rfl
        rw [h1]
        simp only [firstOccAux, hp, if_false]
        rw [firstOccAux_congr (keys rest) (keys acc ++ [p.1]) (p.1 :: keys acc)
          (fun y => by simp [List.mem_append, List.mem_cons, Or.comm])]
        simp

theorem mem_keys_insertAll {α : Type} (ps : List (String × α)) (u : String) : ∀ acc,
    u ∈ keys (insertAll acc ps) ↔ u ∈ keys acc ∨ u ∈ keys ps := by
  induction ps with
  | nil => intro acc; simp [insertAll, keys]
  | cons p rest ih =>
      intro acc
      simp only [insertAll]
      rw [ih]
      rw [mem_keys_dictInsert]
      have : keys (p :: rest) = p.1 :: keys rest := rfl
      rw [this]
      simp only [List.mem_cons]
      tauto

theorem nodup_keys_insertAll {α : Type} (ps : List (String × α)) : ∀ acc,
    (keys acc).Nodup → (keys (insertAll acc ps)).Nodup := by
  induction ps with
  | nil => intro acc h; exact h
  | cons p rest ih =>
      intro acc h
      simp only [insertAll]
      exact ih _ (nodup_keys_dictInsert acc p.1 p.2 h)

theorem found_files_eq (http : Http) (base : String) (timeout : Nat) (files : List String) :
    found_files http base timeout files = insertAll [] (foundPairs http base timeout files) :=
  mainLoop_eq_insertAll http base timeout files []

theorem mem_keys_foundPairs (http : Http) (base : String) (timeout : Nat)
    (files : List String) (u : String) :
    u ∈ keys (foundPairs http base timeout files) ↔
      ∃ f ∈ files, (check_file_exists http base f timeout).found = true ∧
        (check_file_exists http base f timeout).url = u := by
  simp only [keys, foundPairs, probeResults, List.map_map, List.mem_map, List.mem_filter]
  constructor
  · rintro ⟨r, ⟨⟨f, hf, rfl⟩, hfound⟩, hu⟩
    exact ⟨f, hf, hfound, hu⟩
  · rintro ⟨f, hf, hfound, hu⟩
    exact ⟨check_file_exists http base f timeout, ⟨⟨f, hf, rfl⟩, hfound⟩, hu⟩

/-! ### Helper lemmas about slash stripping -/

theorem dropWhile_slash_of_head_ne (l : List Char) (h : l.head? ≠ some '/') :
    l.dropWhile (fun c => c = '/') = l := by
  cases l with
  | nil => rfl
  | cons c t =>
      have hc : ¬ (c = '/') := fun hc => h (by simp [List.head?, hc])
      simp [List.dropWhile_cons, hc]

theorem stripOne_eq_lstrip (l : List Char) (h : ¬ ['/', '/'] <+: l) :
    (if l.head? = some '/' then l.drop 1 else l) = l.dropWhile (fun c => c = '/') := by
  cases l with
  | nil => rfl
  | cons c t =>
      by_cases hc : c = '/'
      · subst hc
        have ht : t.head? ≠ some '/' := by
          intro hh
          apply h
          cases t with
          | nil => simp [List.head?] at hh
          | cons c' t' =>
              simp only [List.head?, Option.some.injEq] at hh
              subst hh
              exact ⟨t', rfl⟩
        simp [List.head?, List.dropWhile_cons, dropWhile_slash_of_head_ne t ht]
      · simp [List.head?, hc, List.dropWhile_cons]

theorem dropLast_eq_reverse_drop (l : List Char) :
    l.dropLast = (l.reverse.drop 1).reverse := by
  cases l using List.reverseRecOn with
  | nil => rfl
  | append_singleton xs x => simp

theorem stripOne_eq_rstrip (l : List Char) (h : ¬ ['/', '/'] <:+ l) :
    (if l.getLast? = some '/' then l.dropLast else l) =
      (l.reverse.dropWhile (fun c => c = '/')).reverse := by
  have hp : ¬ ['/', '/'] <+: l.reverse := by
    rintro ⟨t, ht⟩
    apply h
    refine ⟨t.reverse, ?_⟩
    have hrev := congrArg List.reverse ht
    simpa using hrev
  have key := stripOne_eq_lstrip l.reverse hp
  rw [← key, List.head?_reverse]
  by_cases hg : l.getLast? = some '/'
  · simp only [hg, if_true]
    exact dropLast_eq_reverse_drop l
  · simp [hg]

/-! ### Helper lemmas about strings -/

theorem concatBlocks_append (a b : List String) :
    concatBlocks (a ++ b) = concatBlocks a ++ concatBlocks b := by
  induction a with
  | nil => simp [concatBlocks, String.empty_append]
  | cons s rest ih => simp [concatBlocks, ih, String.append_assoc]

/-! ### The claims -/

/-- Claim C1: for every base URL, filename and timeout, when the HTTP GET at
the joined URL yields a response with status `s`, `check_file_exists` returns
found=true together with the joined URL and the full response body exactly
when `s = 200`; for every other status (redirected-to error pages included,
since the oracle reports the final status, and 4xx/5xx, which
`raise_for_status` turns into a caught `HTTPError`) it returns found=false
with the joined URL and no body. -/
theorem probe_found_iff_status_200 (http : Http) (base filename : String)
    (timeout s : Nat) (txt : String)
    (h : http (urljoin base filename) timeout = HttpOutcome.response s txt) :
    ((check_file_exists http base filename timeout).found = true ↔ s = 200) ∧
    (check_file_exists http base filename timeout).url = urljoin base filename ∧
    (check_file_exists http base filename timeout).body =
      (if s = 200 then some txt else none) := by
  rw [check_of_response http base filename timeout s txt h]
  by_cases hs : s = 200 <;> simp [hs]

theorem probe_found_iff_status_200_witness :
    demoHttp (urljoin "http://example.com" ".env") 5 = HttpOutcome.response 200 "SECRET" ∧
    (((check_file_exists demoHttp "http://example.com" ".env" 5).found = true ↔ 200 = 200) ∧
     (check_file_exists demoHttp "http://example.com" ".env" 5).url =
       urljoin "http://example.com" ".env" ∧
     (check_file_exists demoHttp "http://example.com" ".env" 5).body =
       (if 200 = 200 then some "SECRET" else none)) :=
  ⟨by decide, probe_found_iff_status_200 demoHttp "http://example.com" ".env" 5 200 "SECRET"
    (by decide)⟩

/-- Claim C2: after the scan loop, a URL is a key of `found_files` if and
only if some filename of the list joins to that URL and the GET there
returned status 200 (hence no transport error); failing probes and probes
with any other status contribute nothing. -/
theorem report_membership_invariant (http : Http) (base : String) (timeout : Nat)
    (files : List String) (u : String) :
    (∃ v, (u, v) ∈ found_files http base timeout files) ↔
      ∃ f ∈ files, urljoin base f = u ∧
        ∃ txt, http u timeout = HttpOutcome.response 200 txt := by
  rw [← mem_keys_iff_exists, found_files_eq, mem_keys_insertAll]
  rw [mem_keys_foundPairs]
  constructor
  · rintro (habs | ⟨f, hf, hfound, hurl⟩)
    · exact absurd habs (by simp [keys])
    · rw [check_url] at hurl
      obtain ⟨txt, htxt⟩ := (check_found_iff http base f timeout).mp hfound
      exact ⟨f, hf, hurl, txt, by rw [← hurl]; exact htxt⟩
  · rintro ⟨f, hf, hurl, txt, htxt⟩
    refine Or.inr ⟨f, hf, ?_, ?_⟩
    · exact (check_found_iff http base f timeout).mpr ⟨txt, by rw [hurl]; exact htxt⟩
    · rw [check_url]; exact hurl

theorem report_membership_invariant_witness :
    (∃ v, ("http://example.com/.env", v) ∈
      found_files demoHttp "http://example.com" 5 [".env", "missing.txt"]) ↔
      ∃ f ∈ [".env", "missing.txt"], urljoin "http://example.com" f = "http://example.com/.env" ∧
        ∃ txt, demoHttp "http://example.com/.env" 5 = HttpOutcome.response 200 txt :=
  report_membership_invariant demoHttp "http://example.com" 5 [".env", "missing.txt"]
    "http://example.com/.env"

/-- Claim C3 fails as stated: `urljoin` removes at most one trailing slash
from the base and one leading slash from the filename, so a base ending in
`//` keeps its extra slash, while stripping *every* trailing slash would
remove both; at base `"http://x//"` and filename `".env"` the two results
differ and the joined URL has two slashes between base path and filename. -/
theorem urljoin_strip_all_counterexample :
    urljoin "http://x//" ".env" = "http://x//.env" ∧
    urljoinSpec "http://x//" ".env" = "http://x/.env" ∧
    urljoin "http://x//" ".env" ≠ urljoinSpec "http://x//" ".env" := by
  refine ⟨by decide, by decide, by decide⟩

theorem data_ite_mk (c : Prop) [Decidable c] (X : List Char) (B : String) :
    (if c then String.mk X else B).data = if c then X else B.data := by
  by_cases h : c <;> simp [h]

/-- Claim C3, amended: for every base with at most one trailing slash and
every filename with at most one leading slash, `urljoin` equals the result
of stripping every trailing slash from the base, stripping every leading
slash from the filename, and concatenating with a single `/` (so there is
exactly one slash between them); bases ending in `//` or filenames starting
with `//` keep their extra slashes, since only one is removed. -/
theorem urljoin_amended (B F : String)
    (hB : ¬ ['/', '/'] <:+ B.data) (hF : ¬ ['/', '/'] <+: F.data) :
    urljoin B F = urljoinSpec B F := by
  apply String.ext
  simp only [urljoin, urljoinSpec, String.data_append, data_ite_mk]
  rw [stripOne_eq_rstrip B.data hB, stripOne_eq_lstrip F.data hF]

theorem urljoin_amended_witness :
    ¬ ['/', '/'] <:+ "http://example.com/".data ∧
    ¬ ['/', '/'] <+: "/.env".data ∧
    urljoin "http://example.com/" "/.env" = urljoinSpec "http://example.com/" "/.env" :=
  ⟨by decide, by decide, urljoin_amended "http://example.com/" "/.env" (by decide) (by decide)⟩

/-- Claim C4: when the GET for one probe raises — transport-level
(`RequestException`: timeout, connection refused, DNS failure, TLS failure)
or any other exception — `check_file_exists` returns found=false with the
joined URL and no body instead of propagating (it is a total function into
`ProbeResult`), the failing probe adds nothing to the report, and the scan
loop goes on to probe every remaining filename exactly as it would have
without the failure: no probe error aborts the scan. -/
theorem probe_error_recovered (http : Http) (base f : String) (timeout : Nat)
    (rest : List String)
    (h : http (urljoin base f) timeout = HttpOutcome.transportError ∨
         http (urljoin base f) timeout = HttpOutcome.otherError) :
    check_file_exists http base f timeout =
      ProbeResult.mk false (urljoin base f) none ∧
    found_files http base timeout (f :: rest) = found_files http base timeout rest ∧
    probeResults http base timeout (f :: rest) =
      check_file_exists http base f timeout :: probeResults http base timeout rest := by
  have hres : check_file_exists http base f timeout =
      ProbeResult.mk false (urljoin base f) none := by
    cases h with
    | inl h => exact check_of_transportError http base f timeout h
    | inr h => exact check_of_otherError http base f timeout h
  refine ⟨hres, ?_, rfl⟩
  simp [found_files, mainLoop, hres]

theorem probe_error_recovered_witness :
    (downHttp (urljoin "http://example.com" ".env") 5 = HttpOutcome.transportError ∨
     downHttp (urljoin "http://example.com" ".env") 5 = HttpOutcome.otherError) ∧
    (check_file_exists downHttp "http://example.com" ".env" 5 =
       ProbeResult.mk false (urljoin "http://example.com" ".env") none ∧
     found_files downHttp "http://example.com" 5 [".env", "config.php"] =
       found_files downHttp "http://example.com" 5 ["config.php"] ∧
     probeResults downHttp "http://example.com" 5 [".env", "config.php"] =
       check_file_exists downHttp "http://example.com" ".env" 5 ::
         probeResults downHttp "http://example.com" 5 ["config.php"]) :=
  ⟨Or.inl (by decide),
   probe_error_recovered downHttp "http://example.com" ".env" 5 ["config.php"]
     (Or.inl (by decide))⟩

/-- Claim C5: the scan driver issues exactly one probe per list element, in
list order (the probe-result trace has one entry per filename and its
requested URLs are the joined URLs in order), never stops early on a found
file, and the report is built by folding Python dict insertion over exactly
the found results, in probe order, with no deduplication of that sequence. -/
theorem scan_driver_order (http : Http) (base : String) (timeout : Nat)
    (files : List String) :
    (probeResults http base timeout files).length = files.length ∧
    (probeResults http base timeout files).map (fun r => r.url) =
      files.map (fun f => urljoin base f) ∧
    found_files http base timeout files =
      insertAll [] (foundPairs http base timeout files) := by
  refine ⟨?_, ?_, found_files_eq http base timeout files⟩
  · simp [probeResults]
  · simp only [probeResults, List.map_map]
    exact List.map_congr_left (fun f _ => check_url http base f timeout)

/-- Claim C6: `validate_url` returns true only when the string parses into a
scheme and a non-empty host component (`all([result.scheme, result.netloc])`);
it accepts `http://example.com` and `https://example.com/path`, and rejects
`example.com` (no scheme), the empty string, and `http://` (no host). -/
theorem validate_url_requires_scheme_and_host :
    (∀ s, validate_url s = true →
       ∃ r, urlparse s = Except.ok r ∧ r.scheme ≠ "" ∧ r.netloc ≠ "") ∧
    validate_url "http://example.com" = true ∧
    validate_url "https://example.com/path" = true ∧
    validate_url "example.com" = false ∧
    validate_url "" = false ∧
    validate_url "http://" = false := by
  refine ⟨?_, by decide, by decide, by decide, by decide, by decide⟩
  intro s h
  unfold validate_url at h
  cases hp : urlparse s with
  | error e => rw [hp] at h; simp at h
  | ok r =>
      rw [hp] at h
      simp only [Bool.and_eq_true, Bool.not_eq_true'] at h
      refine ⟨r, rfl, ?_, ?_⟩
      · intro hh
        rw [hh] at h
        simp [String.isEmpty] at h
      · intro hh
        rw [hh] at h
        simp [String.isEmpty] at h

theorem validate_url_requires_scheme_and_host_witness :
    validate_url "http://example.com" = true ∧
    ∃ r, urlparse "http://example.com" = Except.ok r ∧ r.scheme ≠ "" ∧ r.netloc ≠ "" :=
  ⟨by decide,
   validate_url_requires_scheme_and_host.1 "http://example.com" (by decide)⟩

/-- Claim C7: the process exits non-zero (code 1) exactly when the supplied
base URL fails validation, and then no network request is made; on every
other run `main` returns and the process exits 0 regardless of what was
found and regardless of whether writing the output file fails (the write
error is caught and only logged). -/
theorem exit_code_policy (http : Http) (writeOk : Bool) (args : Args) :
    ((pyMain http writeOk args).exitCode = if validate_url args.url then 0 else 1) ∧
    (validate_url args.url = false → (pyMain http writeOk args).probes = []) ∧
    (pyMain http writeOk args).exitCode = (pyMain http true args).exitCode := by
  unfold pyMain
  by_cases h : validate_url args.url = false
  · simp [h]
  · simp [h, eq_true_of_ne_false h]

theorem exit_code_policy_witness :
    validate_url "example.com" = false ∧
    (pyMain demoHttp false (Args.mk "example.com" [".env"] 5 none)).probes = [] :=
  ⟨by decide,
   (exit_code_policy demoHttp false (Args.mk "example.com" [".env"] 5 none)).2.1 (by decide)⟩

/-- Claim C8: when the report is empty the output file's content is exactly
the literal `"No sensitive files found.\n"`; when at least one file was
found, for every found entry the written content contains the block with the
entry's URL, its full body, and a separator line of exactly 40 dash
characters. -/
theorem output_file_content (http : Http) (base : String) (timeout : Nat)
    (files : List String) (u t : String) :
    (found_files http base timeout files = [] →
      outputContent (found_files http base timeout files) = "No sensitive files found.\n") ∧
    ((u, some t) ∈ found_files http base timeout files →
      ∃ pre post, outputContent (found_files http base timeout files) =
        pre ++ ("URL: " ++ u ++ "\n" ++ "Content:\n" ++ t ++ "\n" ++ dashes ++ "\n") ++ post) ∧
    dashes.data.length = 40 ∧
    (∀ c ∈ dashes.data, c = '-') := by
  refine ⟨?_, ?_, by simp [dashes], ?_⟩
  · intro h
    rw [h]
    rfl
  · intro hmem
    obtain ⟨l1, l2, hdec⟩ := List.append_of_mem hmem
    refine ⟨"Potentially sensitive files found:\n" ++ concatBlocks (l1.map entryBlock),
      concatBlocks (l2.map entryBlock), ?_⟩
    rw [hdec]
    have hne : (l1 ++ (u, some t) :: l2).isEmpty = false := by
      cases l1 <;> simp [List.isEmpty]
    simp only [outputContent, hne, Bool.false_eq_true, if_false, List.map_append,
      List.map_cons, concatBlocks_append, concatBlocks, entryBlock, pyStr]
    simp [String.append_assoc]
  · intro c hc
    simp only [dashes] at hc
    exact List.eq_of_mem_replicate hc

theorem output_file_content_witness :
    ("http://example.com/.env", some "SECRET") ∈
      found_files demoHttp "http://example.com" 5 [".env"] ∧
    ∃ pre post,
      outputContent (found_files demoHttp "http://example.com" 5 [".env"]) =
        pre ++ ("URL: " ++ "http://example.com/.env" ++ "\n" ++ "Content:\n" ++ "SECRET" ++ "\n"
          ++ dashes ++ "\n") ++ post :=
  ⟨by decide,
   (output_file_content demoHttp "http://example.com" 5 [".env"]
     "http://example.com/.env" "SECRET").2.1 (by decide)⟩

/-- Claim C9: because the report is a Python dict keyed by resolved URL, a
URL found through several probed filenames ends up as a single entry (the
key list has no duplicates), holding the body returned by the *last*
successful probe for that URL, and sitting at the position of the *first*
successful probe: the key order is the first-occurrence order of the found
URLs. -/
theorem duplicate_url_merging (http : Http) (base : String) (timeout : Nat)
    (files : List String) :
    (keys (found_files http base timeout files)).Nodup ∧
    (∀ u, lookupD (found_files http base timeout files) u =
       lastAssoc (foundPairs http base timeout files) u) ∧
    keys (found_files http base timeout files) =
      firstOcc (keys (foundPairs http base timeout files)) := by
  rw [found_files_eq]
  refine ⟨nodup_keys_insertAll _ [] (by simp [keys]), ?_, ?_⟩
  · intro u
    rw [lookupD_insertAll]
    cases hl : lastAssoc (foundPairs http base timeout files) u <;> simp [hl, lookupD]
  · rw [keys_insertAll]
    simp [keys, firstOcc]

/-- Claim C10: `validate_url` is total over strings: it is a function into
`Bool`, and any exception raised by URL parsing (such as the
`Invalid IPv6 URL` ValueError raised at `"http://["`) is caught by the bare
`except:` and yields false. -/
theorem validate_url_total :
    (∀ s e, urlparse s = Except.error e → validate_url s = false) ∧
    urlparse "http://[" = Except.error "Invalid IPv6 URL" ∧
    validate_url "http://[" = false := by
  refine ⟨?_, by rfl, by decide⟩
  intro s e h
  unfold validate_url
  rw [h]

theorem validate_url_total_witness :
    urlparse "http://[" = Except.error "Invalid IPv6 URL" ∧
    validate_url "http://[" = false :=
  ⟨by rfl, validate_url_total.1 "http://[" "Invalid IPv6 URL" (by rfl)⟩

end VulnScanner
